import Mathlib

/-!
Verification of the resource-planning and VM-placement core of `vm5k.py`
(automatic deployment of virtual machines on Grid'5000).

The Python script is a sequential orchestration; its algorithmic core is
shallowly embedded here:

* the slot-filtering loop (vm5k.py lines 267-287),
* the host-count distribution loop (lines 296-321), with the unbounded
  cluster-cycling `while` modelled by an explicit fuel parameter,
* the IP/MAC generation loop (lines 409-432), with `random.randint`
  modelled by an oracle `rand : Nat → Nat` supplying the byte stream,
* the DHCP configuration strings (lines 500-507),
* the topology reconciliation loop (lines 437-444).

Machine integers do not overflow in any of this Python code, so counts are
`Nat`; the one signed quantity (`(kavlan_id - 4) * 64 + 2`) is `Int`.
Fallible or possibly non-terminating code returns `Option`.
-/

/-! ## Slot Finder (vm5k.py lines 267-287) -/

/-- A candidate planning slot: start time and the per-resource availability
mapping `slot[2]` (resource identifier to free node count). -/
structure Slot where
  start : Nat
  avail : List (String × Nat)
deriving DecidableEq

/-- `slot_ram`: sum over the slot's resources that are clusters of
`n_node * clusters_attr[resource]['mem']` (lines 269, 273-275). -/
def slot_ram (clusters : List String) (memOf : String → Nat) (s : Slot) : Nat :=
  s.avail.foldl (fun acc p => if p.1 ∈ clusters then acc + p.2 * memOf p.1 else acc) 0

/-- `slot_cpu`: sum over the slot's resources that are clusters of
`n_node * clusters_attr[resource]['cpu']` (lines 270, 273-276). -/
def slot_cpu (clusters : List String) (cpuOf : String → Nat) (s : Slot) : Nat :=
  s.avail.foldl (fun acc p => if p.1 ∈ clusters then acc + p.2 * cpuOf p.1 else acc) 0

/-- `slot_has_nodes`: false exactly when some resource of the slot has a
declared minimum in `resources` and fewer available nodes than it
(lines 271, 278-279). -/
def slot_has_nodes (resources : List (String × Nat)) (s : Slot) : Bool :=
  s.avail.all (fun p =>
    match resources.lookup p.1 with
    | some m => decide (m ≤ p.2)
    | none => true)

/-- The discard condition of line 282:
`total_mem > slot_ram or total_cpu/2 > slot_cpu or not slot_has_nodes`. -/
def discard_slot (clusters : List String) (memOf cpuOf : String → Nat)
    (resources : List (String × Nat)) (total_mem total_cpu : Nat) (s : Slot) : Bool :=
  decide (slot_ram clusters memOf s < total_mem) ||
  decide (slot_cpu clusters cpuOf s < total_cpu / 2) ||
  !slot_has_nodes resources s

/-- The filtering loop of lines 267-283: iterate over a copy of the slot
list and remove every slot satisfying the discard condition. -/
def filter_slots (clusters : List String) (memOf cpuOf : String → Nat)
    (resources : List (String × Nat)) (total_mem total_cpu : Nat)
    (slots : List Slot) : List Slot :=
  slots.filter (fun s => !discard_slot clusters memOf cpuOf resources total_mem total_cpu s)

/-- Modelled from the spec: the finer free-slot search
(`planning.find_free_slots`, line 290) is provided by the external
`execo_g5k.planning` collaborator and is absent from src/; per spec §4.2
step 4 it selects the earliest-starting slot among the survivors of the
filtering loop. -/
def find_free_slots_model (clusters : List String) (memOf cpuOf : String → Nat)
    (resources : List (String × Nat)) (total_mem total_cpu : Nat)
    (slots : List Slot) : Option Slot :=
  (filter_slots clusters memOf cpuOf resources total_mem total_cpu slots).head?

theorem slot_has_nodes_iff (resources : List (String × Nat)) (s : Slot) :
    slot_has_nodes resources s = true ↔
      ∀ p ∈ s.avail, ∀ m, resources.lookup p.1 = some m → m ≤ p.2 := by
  unfold slot_has_nodes
  rw [List.all_eq_true]
  constructor
  · intro h p hp m hm
    have := h p hp
    rw [hm] at this
    exact of_decide_eq_true this
  · intro h p hp
    cases hl : resources.lookup p.1 with
    | none => simp [hl]
    | some m => simpa [hl] using h p hp m hl

theorem discard_slot_iff (clusters : List String) (memOf cpuOf : String → Nat)
    (resources : List (String × Nat)) (total_mem total_cpu : Nat) (s : Slot) :
    discard_slot clusters memOf cpuOf resources total_mem total_cpu s = true ↔
      slot_ram clusters memOf s < total_mem ∨
      slot_cpu clusters cpuOf s < total_cpu / 2 ∨
      ∃ p ∈ s.avail, ∃ m, resources.lookup p.1 = some m ∧ p.2 < m := by
  unfold discard_slot
  rw [Bool.or_eq_true, Bool.or_eq_true, decide_eq_true_eq, decide_eq_true_eq,
    Bool.not_eq_true']
  constructor
  · rintro ((h | h) | h)
    · exact Or.inl h
    · exact Or.inr (Or.inl h)
    · refine Or.inr (Or.inr ?_)
      by_contra hc
      push_neg at hc
      have htrue : slot_has_nodes resources s = true :=
        (slot_has_nodes_iff resources s).mpr hc
      simp [htrue] at h
  · rintro (h | h | ⟨p, hp, m, hm, hlt⟩)
    · exact Or.inl (Or.inl h)
    · exact Or.inl (Or.inr h)
    · refine Or.inr ?_
      rw [Bool.eq_false_iff]
      intro hall
      rw [slot_has_nodes_iff] at hall
      exact absurd (hall p hp m hm) (not_le.mpr hlt)

/-- C2: the Slot Finder discards exactly the slots failing the aggregate
feasibility test — a slot of the candidate list is missing from the filtered
list iff total required memory exceeds `slot_ram`, or total required CPU
divided by 2 exceeds `slot_cpu`, or some resource of the slot with a declared
minimum in the request has availability below that minimum; consequently
every surviving slot, and in particular the slot the (spec-modelled) finer
search returns, is sufficient per these formulas. -/
theorem C2_slot_filter_exact (clusters : List String) (memOf cpuOf : String → Nat)
    (resources : List (String × Nat)) (total_mem total_cpu : Nat)
    (slots : List Slot) (s : Slot) (hs : s ∈ slots) :
    (s ∉ filter_slots clusters memOf cpuOf resources total_mem total_cpu slots ↔
      slot_ram clusters memOf s < total_mem ∨
      slot_cpu clusters cpuOf s < total_cpu / 2 ∨
      ∃ p ∈ s.avail, ∃ m, resources.lookup p.1 = some m ∧ p.2 < m) ∧
    (∀ t ∈ filter_slots clusters memOf cpuOf resources total_mem total_cpu slots,
      total_mem ≤ slot_ram clusters memOf t ∧
      total_cpu / 2 ≤ slot_cpu clusters cpuOf t ∧
      ∀ p ∈ t.avail, ∀ m, resources.lookup p.1 = some m → m ≤ p.2) ∧
    (∀ t, find_free_slots_model clusters memOf cpuOf resources total_mem total_cpu slots
        = some t →
      total_mem ≤ slot_ram clusters memOf t ∧
      total_cpu / 2 ≤ slot_cpu clusters cpuOf t ∧
      ∀ p ∈ t.avail, ∀ m, resources.lookup p.1 = some m → m ≤ p.2) := by
  have hmem : ∀ t, t ∈ filter_slots clusters memOf cpuOf resources total_mem total_cpu slots ↔
      t ∈ slots ∧ discard_slot clusters memOf cpuOf resources total_mem total_cpu t = false := by
    intro t
    unfold filter_slots
    rw [List.mem_filter, Bool.not_eq_true']
  have hsuff : ∀ t ∈ filter_slots clusters memOf cpuOf resources total_mem total_cpu slots,
      total_mem ≤ slot_ram clusters memOf t ∧
      total_cpu / 2 ≤ slot_cpu clusters cpuOf t ∧
      ∀ p ∈ t.avail, ∀ m, resources.lookup p.1 = some m → m ≤ p.2 := by
    intro t ht
    have hd := ((hmem t).mp ht).2
    have : ¬ (slot_ram clusters memOf t < total_mem ∨
        slot_cpu clusters cpuOf t < total_cpu / 2 ∨
        ∃ p ∈ t.avail, ∃ m, resources.lookup p.1 = some m ∧ p.2 < m) := by
      rw [← discard_slot_iff]
      simp [hd]
    push_neg at this
    exact ⟨this.1, this.2.1, this.2.2⟩
  refine ⟨?_, hsuff, ?_⟩
  · rw [← discard_slot_iff clusters memOf cpuOf resources total_mem total_cpu s]
    constructor
    · intro hnot
      by_contra hd
      rw [Bool.not_eq_true] at hd
      exact hnot ((hmem s).mpr ⟨hs, hd⟩)
    · intro hd hin
      have := ((hmem s).mp hin).2
      rw [hd] at this
      exact Bool.noConfusion this
  · intro t ht
    unfold find_free_slots_model at ht
    exact hsuff t (List.mem_of_mem_head? ht)

/-- Witness for C2 at a concrete input: one cluster `a` with 8 GiB RAM and
8 CPUs per node; a slot offering 2 nodes of `a` survives a request for
10000 MB / 8 CPUs with minimum 1 node of `a`, and the membership
characterization holds for it. -/
theorem C2_witness :
    (Slot.mk 0 [("a", 2)] ∈ [Slot.mk 0 [("a", 2)]]) ∧
    ((Slot.mk 0 [("a", 2)] ∉
        filter_slots ["a"] (fun _ => 8192) (fun _ => 8) [("a", 1)] 10000 8
          [Slot.mk 0 [("a", 2)]]) ↔
      slot_ram ["a"] (fun _ => 8192) (Slot.mk 0 [("a", 2)]) < 10000 ∨
      slot_cpu ["a"] (fun _ => 8) (Slot.mk 0 [("a", 2)]) < 8 / 2 ∨
      ∃ p ∈ (Slot.mk 0 [("a", 2)]).avail,
        ∃ m, [("a", 1)].lookup p.1 = some m ∧ p.2 < m) := by
  refine ⟨by decide, (C2_slot_filter_exact ["a"] (fun _ => 8192) (fun _ => 8)
    [("a", 1)] 10000 8 [Slot.mk 0 [("a", 2)]] (Slot.mk 0 [("a", 2)]) (by decide)).1⟩

/-! ## VM Distributor: host-count distribution (vm5k.py lines 296-321)

`itertools.cycle` over the keys of `cluster_nodes` is modelled by the key
list `ring` together with a current index; `iter_cluster.next()` is
`(pos + 1) % ring.length`.  The unbounded `while` of lines 314-315 gets an
explicit fuel parameter; exhausted fuel (the loop never exits) yields
`none`, as does the `StopIteration` crash on an empty ring. -/

/-- Mutable state of the distribution loop: current position in the cluster
cycle, RAM already accounted to the current virtual host (`node_ram`), and
the host counts (`cluster_nodes`). -/
structure DistState where
  pos : Nat
  node_ram : Nat
  alloc : String → Nat

/-- `iter_cluster.next()`: advance the cyclic iterator. -/
def nextPos (len pos : Nat) : Nat := (pos + 1) % len

/-- Availability of a resource in the chosen slot (`chosen_slot[2][c]`). -/
def availOf (slot_avail : List (String × Nat)) (c : String) : Nat :=
  (slot_avail.lookup c).getD 0

/-- Keys of `cluster_nodes` (lines 296-299): the chosen slot's resources
that are clusters, in slot order. -/
def ringOf (slot_avail : List (String × Nat)) (clusters : List String) : List String :=
  (slot_avail.map Prod.fst).filter (fun c => c ∈ clusters)

/-- The `while cluster_nodes[cluster] >= chosen_slot[2][cluster]` loop of
lines 314-315, entered at position `pos` (already advanced past the
incremented cluster); returns the position where the loop exits. -/
def skip_full (ring : List String) (avail alloc : String → Nat) : Nat → Nat → Option Nat
  | _, 0 => none
  | pos, fuel + 1 =>
    if avail (ring.getD pos "") ≤ alloc (ring.getD pos "") then
      skip_full ring avail alloc (nextPos ring.length pos) fuel
    else some pos

/-- One iteration of the `for i_vm in range(n_vm)` body (lines 306-315). -/
def vm_step (ring : List String) (avail memOf : String → Nat) (vm_ram fuel : Nat)
    (s : DistState) : Option DistState :=
  let c := ring.getD s.pos ""
  let nr := s.node_ram + vm_ram
  if memOf c < nr + vm_ram then
    let pos1 := if avail c < s.alloc c + 1 then nextPos ring.length s.pos else s.pos
    let c1 := ring.getD pos1 ""
    let al1 := fun x => if x = c1 then s.alloc x + 1 else s.alloc x
    match skip_full ring avail al1 (nextPos ring.length pos1) fuel with
    | some p2 => some ⟨p2, 0, al1⟩
    | none => none
  else some ⟨s.pos, nr, s.alloc⟩

/-- The `for i_vm in range(n_vm)` loop (lines 306-315). -/
def vm_loop (ring : List String) (avail memOf : String → Nat) (vm_ram fuel : Nat) :
    Nat → DistState → Option DistState
  | 0, s => some s
  | n + 1, s =>
    match vm_step ring avail memOf vm_ram fuel s with
    | some s2 => vm_loop ring avail memOf vm_ram fuel n s2
    | none => none

/-- The floor pass of lines 319-321:
`cluster_nodes[cluster] = max(cluster_nodes[cluster], resources[cluster])`
for clusters with a declared minimum. -/
def apply_min (resources : List (String × Nat)) (alloc : String → Nat) (c : String) : Nat :=
  match resources.lookup c with
  | some m => Nat.max (alloc c) m
  | none => alloc c

/-- The whole host-count distribution pass (lines 296-321): initialize the
counts, run the per-VM loop, apply the final unconditional increment of
line 316 to the current cluster, then apply the requested-minimum floor;
the result is materialized as the association list of `cluster_nodes`. -/
def cluster_nodes (slot_avail : List (String × Nat)) (clusters : List String)
    (memOf : String → Nat) (resources : List (String × Nat))
    (vm_ram n_vm fuel : Nat) : Option (List (String × Nat)) :=
  let ring := ringOf slot_avail clusters
  if ring.isEmpty then none
  else
    match vm_loop ring (availOf slot_avail) memOf vm_ram fuel n_vm ⟨0, 0, fun _ => 0⟩ with
    | some s =>
      let c := ring.getD s.pos ""
      let fin := fun x => if x = c then s.alloc x + 1 else s.alloc x
      some (ring.map (fun x => (x, apply_min resources fin x)))
    | none => none

/-- List indexing stays inside the list. -/
theorem getD_mem_of_lt (l : List String) (i : Nat) (h : i < l.length) :
    l.getD i "" ∈ l := by
  induction l generalizing i with
  | nil => exact absurd h (by simp)
  | cons a t ih =>
    cases i with
    | zero => simp
    | succ j =>
      simp only [List.getD_cons_succ]
      exact List.mem_cons_of_mem _ (ih j (by simpa using h))

/-- A member of a list of naturals is at most its sum. -/
theorem le_sum_of_mem_nat {l : List Nat} {x : Nat} (h : x ∈ l) : x ≤ l.sum := by
  induction l with
  | nil => simp at h
  | cons a t ih =>
    rcases List.mem_cons.mp h with rfl | h2
    · simp [List.sum_cons]
    · calc x ≤ t.sum := ih h2
        _ ≤ a + t.sum := Nat.le_add_left _ _
        _ = (a :: t).sum := (List.sum_cons).symm

/-- Loop invariant of the distribution loop: the cycle position is in
range, every cluster's count is within its availability, and the currently
selected cluster is strictly below its ceiling. -/
def DistInv (ring : List String) (avail : String → Nat) (s : DistState) : Prop :=
  s.pos < ring.length ∧
  (∀ c ∈ ring, s.alloc c ≤ avail c) ∧
  s.alloc (ring.getD s.pos "") < avail (ring.getD s.pos "")

theorem skip_full_some (ring : List String) (avail alloc : String → Nat) :
    ∀ fuel pos p, pos < ring.length →
      skip_full ring avail alloc pos fuel = some p →
      p < ring.length ∧ alloc (ring.getD p "") < avail (ring.getD p "") := by
  intro fuel
  induction fuel with
  | zero =>
    intro pos p _ h
    exact absurd h (by simp [skip_full])
  | succ f ih =>
    intro pos p hpos h
    unfold skip_full at h
    by_cases hc : avail (ring.getD pos "") ≤ alloc (ring.getD pos "")
    · rw [if_pos hc] at h
      have hlen : 0 < ring.length := Nat.lt_of_le_of_lt (Nat.zero_le pos) hpos
      exact ih (nextPos ring.length pos) p (Nat.mod_lt _ hlen) h
    · rw [if_neg hc] at h
      cases h
      exact ⟨hpos, lt_of_not_le hc⟩

theorem vm_step_inv (ring : List String) (avail memOf : String → Nat)
    (vm_ram fuel : Nat) (s s2 : DistState)
    (h : vm_step ring avail memOf vm_ram fuel s = some s2)
    (hinv : DistInv ring avail s) : DistInv ring avail s2 := by
  obtain ⟨hpos, hall, hcur⟩ := hinv
  unfold vm_step at h
  by_cases hov : memOf (ring.getD s.pos "") < s.node_ram + vm_ram + vm_ram
  · rw [if_pos hov] at h
    have hnle : ¬ avail (ring.getD s.pos "") < s.alloc (ring.getD s.pos "") + 1 :=
      not_lt.mpr hcur
    rw [if_neg hnle] at h
    dsimp only at h
    set c := ring.getD s.pos "" with hc
    set al1 := fun x => if x = c then s.alloc x + 1 else s.alloc x with hal1
    have hall1 : ∀ x ∈ ring, al1 x ≤ avail x := by
      intro x hx
      rw [hal1]
      by_cases hxc : x = c
      · subst hxc
        simpa using Nat.succ_le_of_lt hcur
      · simpa [hxc] using hall x hx
    cases hsk : skip_full ring avail al1 (nextPos ring.length s.pos) fuel with
    | none => rw [hsk] at h; exact absurd h (by simp)
    | some p2 =>
      rw [hsk] at h
      have hlen : 0 < ring.length := Nat.lt_of_le_of_lt (Nat.zero_le s.pos) hpos
      have hres := skip_full_some ring avail al1 fuel (nextPos ring.length s.pos) p2
        (Nat.mod_lt _ hlen) hsk
      cases h
      exact ⟨hres.1, hall1, hres.2⟩
  · rw [if_neg hov] at h
    cases h
    exact ⟨hpos, hall, hcur⟩

theorem vm_loop_inv (ring : List String) (avail memOf : String → Nat)
    (vm_ram fuel : Nat) :
    ∀ n s s2, vm_loop ring avail memOf vm_ram fuel n s = some s2 →
      DistInv ring avail s → DistInv ring avail s2 := by
  intro n
  induction n with
  | zero =>
    intro s s2 h hinv
    cases h
    exact hinv
  | succ k ih =>
    intro s s2 h hinv
    unfold vm_loop at h
    cases hstep : vm_step ring avail memOf vm_ram fuel s with
    | none => rw [hstep] at h; exact absurd h (by simp)
    | some s1 =>
      rw [hstep] at h
      exact ih s1 s2 h (vm_step_inv ring avail memOf vm_ram fuel s s1 hstep hinv)

/-- C1 counterexample: for the chosen slot offering cluster `a` with
availability 0 and a request for 0 VMs, the distribution pass returns the
allocation `a ↦ 1` (the unconditional final increment of line 316), which
exceeds the slot's availability for `a` — so the allocation is not bounded
by availability for every chosen slot, refuting the claim as stated. -/
theorem C1_counterexample :
    cluster_nodes [("a", 0)] ["a"] (fun _ => 1024) [] 512 0 1 = some [("a", 1)] ∧
    ¬ (1 ≤ availOf [("a", 0)] "a") := by
  constructor
  · rfl
  · decide

/-- C1 (amended): whenever every cluster of the ring has availability at
least 1 in the chosen slot and every declared per-cluster minimum is at
most that cluster's availability, any allocation the host-count
distribution pass returns satisfies, for every cluster in it,
`allocation ≤ availability` and `allocation ≥ declared minimum`. -/
theorem C1_distribution_capacity_safe
    (slot_avail : List (String × Nat)) (clusters : List String)
    (memOf : String → Nat) (resources : List (String × Nat))
    (vm_ram n_vm fuel : Nat) (l : List (String × Nat))
    (hAvail : ∀ c ∈ ringOf slot_avail clusters, 1 ≤ availOf slot_avail c)
    (hMin : ∀ c ∈ ringOf slot_avail clusters,
      ∀ m, resources.lookup c = some m → m ≤ availOf slot_avail c)
    (hRun : cluster_nodes slot_avail clusters memOf resources vm_ram n_vm fuel = some l) :
    ∀ p ∈ l, p.2 ≤ availOf slot_avail p.1 ∧
      ∀ m, resources.lookup p.1 = some m → m ≤ p.2 := by
  unfold cluster_nodes at hRun
  by_cases he : (ringOf slot_avail clusters).isEmpty
  · rw [if_pos he] at hRun
    exact absurd hRun (by simp)
  · rw [if_neg he] at hRun
    have hne : ringOf slot_avail clusters ≠ [] := by
      intro hnil
      rw [hnil] at he
      exact he rfl
    have hlen : 0 < (ringOf slot_avail clusters).length := List.length_pos.mpr hne
    cases hv : vm_loop (ringOf slot_avail clusters) (availOf slot_avail) memOf
        vm_ram fuel n_vm ⟨0, 0, fun _ => 0⟩ with
    | none => rw [hv] at hRun; exact absurd hRun (by simp)
    | some s =>
      rw [hv] at hRun
      dsimp only at hRun
      have hinv0 : DistInv (ringOf slot_avail clusters) (availOf slot_avail)
          ⟨0, 0, fun _ => 0⟩ := by
        refine ⟨hlen, fun c _ => Nat.zero_le _, ?_⟩
        exact Nat.lt_of_lt_of_le Nat.zero_lt_one
          (hAvail _ (getD_mem_of_lt _ 0 hlen))
      have hinv := vm_loop_inv (ringOf slot_avail clusters) (availOf slot_avail)
        memOf vm_ram fuel n_vm _ s hv hinv0
      obtain ⟨hpos, hall, hcur⟩ := hinv
      have hl : l = (ringOf slot_avail clusters).map
          (fun x => (x, apply_min resources
            (fun y => if y = (ringOf slot_avail clusters).getD s.pos "" then
              s.alloc y + 1 else s.alloc y) x)) := by
        cases hRun
        rfl
      subst hl
      intro p hp
      obtain ⟨x, hx, rfl⟩ := List.mem_map.mp hp
      have hfin : (if x = (ringOf slot_avail clusters).getD s.pos "" then
          s.alloc x + 1 else s.alloc x) ≤ availOf slot_avail x := by
        by_cases hxc : x = (ringOf slot_avail clusters).getD s.pos ""
        · rw [if_pos hxc]
          rw [hxc]
          exact Nat.succ_le_of_lt hcur
        · rw [if_neg hxc]
          exact hall x hx
      dsimp only
      constructor
      · unfold apply_min
        cases hlk : resources.lookup x with
        | none => exact hfin
        | some m => exact Nat.max_le.mpr ⟨hfin, hMin x hx m hlk⟩
      · intro m hm
        unfold apply_min
        rw [hm]
        exact Nat.le_max_right _ m

/-- Witness for C1: two clusters of 2 nodes each (2048 MB per node), six
512 MB VMs and a declared minimum of 1 node on `a`; the pass allocates one
host on each cluster, within availability and above the minimum. -/
theorem C1_witness :
    cluster_nodes [("a", 2), ("b", 2)] ["a", "b"] (fun _ => 2048) [("a", 1)]
        512 6 5 = some [("a", 1), ("b", 1)] ∧
    ∀ p ∈ [(("a" : String), 1), ("b", 1)],
      p.2 ≤ availOf [("a", 2), ("b", 2)] p.1 ∧
      ∀ m, List.lookup p.1 [("a", 1)] = some m → m ≤ p.2 := by
  have hrun : cluster_nodes [("a", 2), ("b", 2)] ["a", "b"] (fun _ => 2048)
      [("a", 1)] 512 6 5 = some [("a", 1), ("b", 1)] := by rfl
  refine ⟨hrun, ?_⟩
  exact C1_distribution_capacity_safe [("a", 2), ("b", 2)] ["a", "b"]
    (fun _ => 2048) [("a", 1)] 512 6 5 [("a", 1), ("b", 1)]
    (by decide) (by decide) hrun

/-- Unfolding lemma for one iteration of the per-VM loop. -/
theorem vm_loop_succ (ring : List String) (avail memOf : String → Nat)
    (vm_ram fuel n : Nat) (s : DistState) :
    vm_loop ring avail memOf vm_ram fuel (n + 1) s =
      match vm_step ring avail memOf vm_ram fuel s with
      | some s2 => vm_loop ring avail memOf vm_ram fuel n s2
      | none => none := rfl

/-- On the single-cluster ring `["a"]` with availability 1, once cluster
`a` holds one host the cluster-cycling while-loop never finds a cluster
below its ceiling: it consumes any amount of fuel and fails. -/
theorem skip_full_stuck_single (al : String → Nat) (hal : 1 ≤ al "a") :
    ∀ fuel pos, skip_full ["a"] (availOf [("a", 1)]) al pos fuel = none := by
  intro fuel
  induction fuel with
  | zero => intro pos; rfl
  | succ f ih =>
    intro pos
    unfold skip_full
    rw [if_pos ?_]
    · exact ih (nextPos (List.length ["a"]) pos)
    · cases pos with
      | zero => simpa [availOf] using hal
      | succ n => exact Nat.zero_le _

/-- C6 (code bug per spec §4.3): on a single-cluster allocation (cycle of
length 1) whose ceiling is reached — cluster `a` with availability 1, one
512 MB VM per 512 MB host, 2 VMs — the host-count distribution never
terminates: for every fuel bound the cluster-cycling while-loop of lines
314-315 fails to exit, so the code loops forever instead of failing with
`CapacityExhausted` as the specification requires. -/
theorem C6_single_cluster_diverges :
    ∀ fuel, cluster_nodes [("a", 1)] ["a"] (fun _ => 512) [] 512 2 fuel = none := by
  intro fuel
  have hstep : vm_step ["a"] (availOf [("a", 1)]) (fun _ => 512) 512 fuel
      ⟨0, 0, fun _ => 0⟩ = none := by
    unfold vm_step
    dsimp only
    rw [if_pos (by norm_num)]
    rw [if_neg (by decide)]
    simp only [List.getD_cons_zero, Nat.zero_add]
    rw [skip_full_stuck_single (fun x => if x = "a" then 1 else 0) (by norm_num)
      fuel (nextPos (List.length ["a"]) 0)]
  unfold cluster_nodes
  rw [show ringOf [("a", 1)] ["a"] = ["a"] from rfl]
  rw [if_neg (by decide)]
  rw [vm_loop_succ]
  rw [hstep]

/-- C10: for any chosen slot whose ring of available clusters is nonempty,
a request for zero VMs still succeeds and, because of the unconditional
increment of line 316 after the per-VM loop, yields an allocation whose
host counts sum to at least one — never an all-zero allocation. -/
theorem C10_zero_vms_allocates_one_host
    (slot_avail : List (String × Nat)) (clusters : List String)
    (memOf : String → Nat) (resources : List (String × Nat)) (vm_ram fuel : Nat)
    (h : ringOf slot_avail clusters ≠ []) :
    ∃ l, cluster_nodes slot_avail clusters memOf resources vm_ram 0 fuel = some l ∧
      1 ≤ (l.map Prod.snd).sum := by
  have hlen : 0 < (ringOf slot_avail clusters).length := List.length_pos.mpr h
  unfold cluster_nodes
  rw [if_neg (by simp [h])]
  have hvl : vm_loop (ringOf slot_avail clusters) (availOf slot_avail) memOf
      vm_ram fuel 0 ⟨0, 0, fun _ => 0⟩ = some ⟨0, 0, fun _ => 0⟩ := rfl
  rw [hvl]
  dsimp only
  refine ⟨_, rfl, ?_⟩
  rw [List.map_map]
  have hc0 : (ringOf slot_avail clusters).getD 0 "" ∈ ringOf slot_avail clusters :=
    getD_mem_of_lt _ 0 hlen
  have hval : 1 ≤ apply_min resources
      (fun x => if x = (ringOf slot_avail clusters).getD 0 "" then 0 + 1 else 0)
      ((ringOf slot_avail clusters).getD 0 "") := by
    unfold apply_min
    cases resources.lookup ((ringOf slot_avail clusters).getD 0 "") with
    | none => simp
    | some m => exact le_trans (by simp) (Nat.le_max_left _ m)
  refine le_trans hval (le_sum_of_mem_nat ?_)
  exact List.mem_map_of_mem _ hc0

/-- Witness for C10: one cluster `a` with 3 available nodes and zero
requested VMs still yields an allocation totalling at least one host. -/
theorem C10_witness :
    ∃ l, cluster_nodes [("a", 3)] ["a"] (fun _ => 1024) [] 512 0 1 = some l ∧
      1 ≤ (l.map Prod.snd).sum :=
  C10_zero_vms_allocates_one_host [("a", 3)] ["a"] (fun _ => 1024) [] 512 1
    (by decide)

/-! ## Network Identity Allocator (vm5k.py lines 407-432)

Addresses are 32-bit values as `Nat`; `ip.words[2]` and `ip.words[3]` are
the third and fourth octets.  `random.randint(0x00, 0xff)` is modelled by
an oracle `rand : Nat → Nat` indexed by draw number (reduced mod 256), and
the regenerate-on-collision `while` of lines 426-430 gets a fuel bound. -/

/-- Third octet `ip.words[2]` of an address. -/
def word2 (a : Nat) : Nat := a / 256 % 256

/-- Fourth octet `ip.words[3]` of an address. -/
def word3 (a : Nat) : Nat := a % 256

/-- `IPNetwork(addresses).iter_hosts()` (line 411): the host addresses of
the block in ascending order, network and broadcast addresses excluded. -/
def iter_hosts (base pfx : Nat) : List Nat :=
  (List.range (2 ^ (32 - pfx) - 2)).map (fun i => base + 1 + i)

/-- The address filter of lines 412-416: skip `.0` addresses; keep the
address if exactly one site is involved and the third octet exceeds
`(kavlan_id - 4) * 64 + 2`, or else (the `elif`) if the third octet is at
least 216. -/
def keep_addr (n_sites : Nat) (kavlan_id : Int) (a : Nat) : Bool :=
  if word3 a ≠ 0 then
    if n_sites = 1 ∧ ((word2 a : Int) > (kavlan_id - 4) * 64 + 2) then true
    else if 216 ≤ word2 a then true
    else false
  else false

/-- `vm_ip` (lines 409-416): the usable addresses of the VLAN block. -/
def vm_ip (base pfx n_sites : Nat) (kavlan_id : Int) : List Nat :=
  (iter_hosts base pfx).filter (keep_addr n_sites kavlan_id)

/-- One MAC draw (lines 422-425): the fixed organizational bytes
`00:20:4e` followed by three bytes from the random stream. -/
def gen_mac (rand : Nat → Nat) (k : Nat) : List Nat :=
  [0x00, 0x20, 0x4e, rand k % 256, rand (k + 1) % 256, rand (k + 2) % 256]

/-- The collision-retry loop of lines 426-430: redraw while the MAC is
among the already issued ones; returns the fresh MAC and the next position
in the random stream, or `none` when the fuel bound is exhausted. -/
def fresh_mac (rand : Nat → Nat) (macs : List (List Nat)) :
    Nat → Nat → Option (List Nat × Nat)
  | _, 0 => none
  | k, fuel + 1 =>
    if gen_mac rand k ∈ macs then fresh_mac rand macs (k + 3) fuel
    else some (gen_mac rand k, k + 3)

/-- The `for ip in vm_ip[0:n_vm]` loop of lines 421-432, threading the
issued-MAC list `macs` and the position in the random stream. -/
def ip_mac_loop (rand : Nat → Nat) (fuel : Nat) :
    List Nat → List (List Nat) → Nat → Option (List (Nat × List Nat))
  | [], _, _ => some []
  | ip :: rest, macs, k =>
    match fresh_mac rand macs k fuel with
    | some (mac, k2) =>
      match ip_mac_loop rand fuel rest (macs ++ [mac]) k2 with
      | some l => some ((ip, mac) :: l)
      | none => none
    | none => none

/-- `ip_mac` (lines 418-432): fails when the filtered pool is empty (the
`min_ip = vm_ip[0]` access of line 418 raises IndexError), otherwise runs
the generation loop over the first `n_vm` usable addresses. -/
def ip_mac (base pfx n_sites : Nat) (kavlan_id : Int) (n_vm : Nat)
    (rand : Nat → Nat) (fuel : Nat) : Option (List (Nat × List Nat)) :=
  if vm_ip base pfx n_sites kavlan_id = [] then none
  else ip_mac_loop rand fuel ((vm_ip base pfx n_sites kavlan_id).take n_vm) [] 0

theorem fresh_mac_some (rand : Nat → Nat) (macs : List (List Nat)) :
    ∀ fuel k m k2, fresh_mac rand macs k fuel = some (m, k2) →
      m ∉ macs ∧ ∃ j, m = gen_mac rand j := by
  intro fuel
  induction fuel with
  | zero =>
    intro k m k2 h
    exact absurd h (by simp [fresh_mac])
  | succ f ih =>
    intro k m k2 h
    unfold fresh_mac at h
    by_cases hc : gen_mac rand k ∈ macs
    · rw [if_pos hc] at h
      exact ih (k + 3) m k2 h
    · rw [if_neg hc] at h
      cases h
      exact ⟨hc, k, rfl⟩

theorem ip_mac_loop_spec (rand : Nat → Nat) (fuel : Nat) :
    ∀ ips macs k l, ip_mac_loop rand fuel ips macs k = some l →
      l.map Prod.fst = ips ∧ (l.map Prod.snd).Nodup ∧
      ∀ m ∈ l.map Prod.snd, m ∉ macs ∧ ∃ j, m = gen_mac rand j := by
  intro ips
  induction ips with
  | nil =>
    intro macs k l h
    cases h
    exact ⟨rfl, List.nodup_nil, by simp⟩
  | cons ip rest ih =>
    intro macs k l h
    unfold ip_mac_loop at h
    cases hf : fresh_mac rand macs k fuel with
    | none => rw [hf] at h; exact absurd h (by simp)
    | some mk =>
      obtain ⟨mac, k2⟩ := mk
      rw [hf] at h
      dsimp only at h
      cases hl : ip_mac_loop rand fuel rest (macs ++ [mac]) k2 with
      | none => rw [hl] at h; exact absurd h (by simp)
      | some tl =>
        rw [hl] at h
        cases h
        obtain ⟨hfst, hnd, hnew⟩ := ih (macs ++ [mac]) k2 tl hl
        obtain ⟨hnotin, j, hshape⟩ := fresh_mac_some rand macs fuel k mac k2 hf
        refine ⟨by simp [hfst], ?_, ?_⟩
        · rw [List.map_cons, List.nodup_cons]
          constructor
          · intro hmem
            have := (hnew mac hmem).1
            simp at this
          · exact hnd
        · intro m hm
          rw [List.map_cons] at hm
          rcases List.mem_cons.mp hm with rfl | hm2
          · exact ⟨hnotin, j, hshape⟩
          · have := hnew m hm2
            refine ⟨fun hmm => this.1 (List.mem_append_left _ hmm), this.2⟩

theorem vm_ip_sorted (base pfx n_sites : Nat) (kavlan_id : Int) :
    (vm_ip base pfx n_sites kavlan_id).Pairwise (· < ·) := by
  unfold vm_ip iter_hosts
  refine List.Pairwise.filter _ ?_
  refine List.Pairwise.map _ ?_ (List.pairwise_lt_range _)
  intro a b hab
  omega

theorem vm_ip_nodup (base pfx n_sites : Nat) (kavlan_id : Int) :
    (vm_ip base pfx n_sites kavlan_id).Nodup :=
  (vm_ip_sorted base pfx n_sites kavlan_id).imp Nat.ne_of_lt

/-- C4: within one allocator invocation, if the generation loop succeeds
then no two emitted pairs share an address and no two share a MAC, and
every emitted MAC is the fixed 3-byte organizational prefix `00:20:4e`
followed by three bytes below 256 drawn from the random stream (redrawn on
collision with previously issued MACs). -/
theorem C4_no_duplicate_identities (base pfx n_sites : Nat) (kavlan_id : Int)
    (n_vm : Nat) (rand : Nat → Nat) (fuel : Nat) (l : List (Nat × List Nat))
    (h : ip_mac base pfx n_sites kavlan_id n_vm rand fuel = some l) :
    (l.map Prod.fst).Nodup ∧ (l.map Prod.snd).Nodup ∧
    ∀ m ∈ l.map Prod.snd, m.take 3 = [0x00, 0x20, 0x4e] ∧ m.length = 6 ∧
      ∀ b ∈ m, b < 256 := by
  unfold ip_mac at h
  by_cases he : vm_ip base pfx n_sites kavlan_id = []
  · rw [if_pos he] at h
    exact absurd h (by simp)
  · rw [if_neg he] at h
    obtain ⟨hfst, hnd, hnew⟩ := ip_mac_loop_spec rand fuel _ [] 0 l h
    refine ⟨?_, hnd, ?_⟩
    · rw [hfst]
      exact (vm_ip_nodup base pfx n_sites kavlan_id).sublist (List.take_sublist _ _)
    · intro m hm
      obtain ⟨-, j, rfl⟩ := hnew m hm
      refine ⟨rfl, rfl, ?_⟩
      intro b hb
      unfold gen_mac at hb
      simp only [List.mem_cons, List.not_mem_nil, or_false] at hb
      rcases hb with h | h | h | h | h | h <;> subst h <;> omega
      
/-- Witness for C4 at a concrete run: the /30 block 10.0.67.0, one site,
VLAN 5, two VMs, identity byte stream — both properties hold for the two
returned pairs. -/
theorem C4_witness :
    ((([(0x0A004301, [0, 32, 78, 0, 1, 2]),
        (0x0A004302, [0, 32, 78, 3, 4, 5])]).map Prod.fst).Nodup ∧
     (([(0x0A004301, [0, 32, 78, 0, 1, 2]),
        (0x0A004302, [0, 32, 78, 3, 4, 5])]).map Prod.snd).Nodup ∧
     ∀ m ∈ ([((0x0A004301 : Nat), [(0 : Nat), 32, 78, 0, 1, 2]),
        (0x0A004302, [0, 32, 78, 3, 4, 5])]).map Prod.snd,
       m.take 3 = [0x00, 0x20, 0x4e] ∧ m.length = 6 ∧ ∀ b ∈ m, b < 256) :=
  C4_no_duplicate_identities 0x0A004300 30 1 5 2 (fun k => k) 1 _ (by decide)

/-- C3 counterexample: on the /30 block 10.0.67.0 (two usable addresses
survive the filter) with n = 3 requested VMs, the allocator silently
returns only 2 pairs — shorter than n and with no failure — because
line 421 slices `vm_ip[0:n_vm]`; it never raises `AddressPoolExhausted`. -/
theorem C3_counterexample :
    ip_mac 0x0A004300 30 1 5 3 (fun k => k) 1 =
      some [(0x0A004301, [0, 32, 78, 0, 1, 2]),
            (0x0A004302, [0, 32, 78, 3, 4, 5])] ∧
    (2 : Nat) < 3 := by
  constructor
  · decide
  · decide

/-- C3 (amended): the allocator returns `min n (pool size)` pairs — exactly
n when at least n usable addresses survive the filter, and silently fewer
(all remaining usable addresses) when the pool is smaller; the only failure
is an IndexError (not `AddressPoolExhausted`) when the filtered pool is
empty. -/
theorem C3_truncating_allocation (base pfx n_sites : Nat) (kavlan_id : Int)
    (n_vm : Nat) (rand : Nat → Nat) (fuel : Nat) :
    (∀ l, ip_mac base pfx n_sites kavlan_id n_vm rand fuel = some l →
      l.length = min n_vm (vm_ip base pfx n_sites kavlan_id).length) ∧
    (vm_ip base pfx n_sites kavlan_id = [] →
      ip_mac base pfx n_sites kavlan_id n_vm rand fuel = none) := by
  constructor
  · intro l h
    unfold ip_mac at h
    by_cases he : vm_ip base pfx n_sites kavlan_id = []
    · rw [if_pos he] at h
      exact absurd h (by simp)
    · rw [if_neg he] at h
      have hfst := (ip_mac_loop_spec rand fuel _ [] 0 l h).1
      calc l.length = (l.map Prod.fst).length := (List.length_map _ _).symm
        _ = ((vm_ip base pfx n_sites kavlan_id).take n_vm).length := by rw [hfst]
        _ = min n_vm (vm_ip base pfx n_sites kavlan_id).length := List.length_take _ _
  · intro he
    unfold ip_mac
    rw [if_pos he]

/-- Witness for C3 (amended) at the /30 run: the 2 returned pairs are
exactly `min 3 (pool size)` many. -/
theorem C3_witness :
    ([((0x0A004301 : Nat), [(0 : Nat), 32, 78, 0, 1, 2]),
      (0x0A004302, [0, 32, 78, 3, 4, 5])]).length =
      min 3 (vm_ip 0x0A004300 30 1 5).length :=
  (C3_truncating_allocation 0x0A004300 30 1 5 3 (fun k => k) 1).1 _ (by decide)

theorem keep_addr_iff (n_sites : Nat) (kavlan_id : Int) (a : Nat) :
    keep_addr n_sites kavlan_id a = true ↔
      word3 a ≠ 0 ∧
        ((n_sites = 1 ∧ (word2 a : Int) > (kavlan_id - 4) * 64 + 2) ∨
          216 ≤ word2 a) := by
  unfold keep_addr
  by_cases h3 : word3 a ≠ 0
  · rw [if_pos h3]
    by_cases h1 : n_sites = 1 ∧ ((word2 a : Int) > (kavlan_id - 4) * 64 + 2)
    · simp [h1, h3]
    · rw [if_neg h1]
      by_cases h2 : 216 ≤ word2 a
      · simp [h1, h2, h3]
      · simp [h1, h2, h3]
  · rw [if_neg h3]
    simp [h3]

/-- C5 counterexample: with a single site and vlan_id = 10 the address
10.0.216.1 is kept by the filter although its third octet 216 does not
exceed `(10 − 4) × 64 + 2 = 386` — the `elif` of line 415 also keeps
third octets ≥ 216 in the single-site case, refuting the claimed
"if and only if". -/
theorem C5_counterexample :
    keep_addr 1 10 0x0A00D801 = true ∧
    ¬ ((word2 0x0A00D801 : Int) > ((10 : Int) - 4) * 64 + 2) := by
  constructor
  · decide
  · decide

/-- C5 (amended): an address is kept iff its fourth octet is nonzero and
either (exactly one site is involved and its third octet exceeds
`(vlan_id − 4) × 64 + 2`) or its third octet is at least 216 — the latter
disjunct applying in the single-site case too; in particular, for
vlan_id = 5 and a single site every chosen address has third octet
greater than 66. -/
theorem C5_address_filter (n_sites : Nat) (kavlan_id : Int) (a : Nat)
    (base pfx b : Nat) (hb : b ∈ vm_ip base pfx 1 5) :
    (keep_addr n_sites kavlan_id a = true ↔
      word3 a ≠ 0 ∧
        ((n_sites = 1 ∧ (word2 a : Int) > (kavlan_id - 4) * 64 + 2) ∨
          216 ≤ word2 a)) ∧
    66 < word2 b := by
  refine ⟨keep_addr_iff n_sites kavlan_id a, ?_⟩
  have hk : keep_addr 1 5 b = true := List.of_mem_filter hb
  have := (keep_addr_iff 1 5 b).mp hk
  rcases this.2 with ⟨-, hgt⟩ | hge
  · have : ((5 : Int) - 4) * 64 + 2 = 66 := by norm_num
    rw [this] at hgt
    exact_mod_cast hgt
  · omega

/-- Witness for C5 at concrete inputs: the characterization instantiated at
a multi-site query on 10.0.216.1, and the address 10.0.67.1 drawn from the
single-site VLAN-5 pool of the /30 block 10.0.67.0 has third octet 67 >
66. -/
theorem C5_witness :
    (keep_addr 2 5 0x0A00D801 = true ↔
      word3 0x0A00D801 ≠ 0 ∧
        ((2 = 1 ∧ (word2 0x0A00D801 : Int) > ((5 : Int) - 4) * 64 + 2) ∨
          216 ≤ word2 0x0A00D801)) ∧
    66 < word2 0x0A004301 :=
  C5_address_filter 2 5 0x0A00D801 0x0A004300 30 0x0A004301 (by decide)

/-! ## Topology Matcher (vm5k.py lines 437-444) -/

/-- Python substring containment `needle in hay` (the match test of
line 442). -/
def substr_in (needle hay : String) : Bool :=
  (List.range (hay.data.length + 1)).any (fun i => needle.data.isPrefixOf (hay.data.drop i))

/-- `s.split('-')[0]`: the cluster-name prefix of a host identifier, the
text before the first separator (line 442). -/
def cluster_pfx (s : String) : String :=
  String.mk (s.data.takeWhile (fun c => c != Char.ofNat 45))

/-- `host.address.split('.')[0]`: short host name from an FQDN
(line 439). -/
def short_name (s : String) : String :=
  String.mk (s.data.takeWhile (fun c => c != Char.ofNat 46))

/-- The reconciliation loop of lines 440-444 over the topology's logical
host identifiers, threading the unclaimed concrete list `tmp_hosts`: an
identifier present verbatim is left alone; otherwise it is rewritten to
`tmp[0]`, the first unclaimed concrete host containing its cluster-name
prefix as a substring, which is then claimed (`tmp_hosts.remove(tmp[0])`);
the IndexError raised by `tmp[0]` when there is no match is `none`.
Returns the rewritten identifiers together with the leftover unclaimed
hosts. -/
def match_hosts : List String → List String → Option (List String × List String)
  | tmp_hosts, [] => some ([], tmp_hosts)
  | tmp_hosts, lid :: rest =>
    if lid ∈ tmp_hosts then
      match match_hosts tmp_hosts rest with
      | some (out, th) => some (lid :: out, th)
      | none => none
    else
      match tmp_hosts.filter (fun h => substr_in (cluster_pfx lid) h) with
      | [] => none
      | c :: _ =>
        match match_hosts (tmp_hosts.erase c) rest with
        | some (out, th) => some (c :: out, th)
        | none => none

/-- The whole matcher: concrete hosts are shortened FQDNs (line 439). -/
def topology_match (hosts : List String) (lids : List String) :
    Option (List String × List String) :=
  match_hosts (hosts.map short_name) lids

/-- C7 counterexample: the logical host `ab-99` is not present verbatim in
the concrete set `{xab-1}`, and no concrete host shares its cluster-name
prefix `ab` (the only candidate has prefix `xab`), so per the claim the
matcher must fail with `TopologyUnsatisfiable`; the code instead matches by
substring containment (`'ab' in 'xab-1'`) and rewrites the identifier to
`xab-1`. -/
theorem C7_counterexample :
    match_hosts ["xab-1"] ["ab-99"] = some (["xab-1"], []) ∧
    cluster_pfx "xab-1" ≠ cluster_pfx "ab-99" := by
  constructor
  · decide
  · decide

/-- C7 (amended): for a logical host identifier not present verbatim among
the unclaimed concrete hosts, the matcher fails when no unclaimed concrete
host contains the identifier's cluster-name prefix as a substring;
otherwise it rewrites the identifier to the first such host `c` and
continues on the remaining identifiers with `c` claimed (removed), so a
second logical host with the same prefix resolves to the next unclaimed
match. -/
theorem C7_topology_matching (tmp_hosts rest : List String) (lid : String)
    (h : lid ∉ tmp_hosts) :
    (tmp_hosts.filter (fun x => substr_in (cluster_pfx lid) x) = [] →
      match_hosts tmp_hosts (lid :: rest) = none) ∧
    (∀ c cs, tmp_hosts.filter (fun x => substr_in (cluster_pfx lid) x) = c :: cs →
      match_hosts tmp_hosts (lid :: rest) =
        Option.map (fun p => (c :: p.1, p.2)) (match_hosts (tmp_hosts.erase c) rest)) := by
  constructor
  · intro hf
    unfold match_hosts
    rw [if_neg h, hf]
  · intro c cs hf
    cases hrec : match_hosts (tmp_hosts.erase c) rest with
    | none =>
      unfold match_hosts
      rw [if_neg h, hf]
      dsimp only
      rw [hrec]
      rfl
    | some p =>
      obtain ⟨out, th⟩ := p
      unfold match_hosts
      rw [if_neg h, hf]
      dsimp only
      rw [hrec]
      rfl

/-- Witness for C7 at the spec scenario: logical `clusterA-99` against the
unclaimed concrete hosts `clusterA-1, clusterA-2`. -/
theorem C7_witness :
    ((["clusterA-1", "clusterA-2"].filter
        (fun x => substr_in (cluster_pfx "clusterA-99") x) = [] →
      match_hosts ["clusterA-1", "clusterA-2"] ["clusterA-99", "clusterA-98"] = none) ∧
     (∀ c cs, ["clusterA-1", "clusterA-2"].filter
        (fun x => substr_in (cluster_pfx "clusterA-99") x) = c :: cs →
      match_hosts ["clusterA-1", "clusterA-2"] ["clusterA-99", "clusterA-98"] =
        Option.map (fun p => (c :: p.1, p.2))
          (match_hosts (["clusterA-1", "clusterA-2"].erase c) ["clusterA-98"]))) :=
  C7_topology_matching ["clusterA-1", "clusterA-2"] ["clusterA-98"] "clusterA-99"
    (by decide)

/-- C9: the Topology Matcher is idempotent on a fully concrete topology —
when every logical host identifier is already present verbatim among the
concrete hosts, no identifier is rewritten and no host is claimed, so a
second run receives the same input and again changes nothing. -/
theorem C9_matcher_idempotent (tmp_hosts lids : List String)
    (h : ∀ x ∈ lids, x ∈ tmp_hosts) :
    match_hosts tmp_hosts lids = some (lids, tmp_hosts) := by
  induction lids with
  | nil => rfl
  | cons lid rest ih =>
    unfold match_hosts
    rw [if_pos (h lid (List.mem_cons_self _ _))]
    rw [ih (fun x hx => h x (List.mem_cons_of_mem _ hx))]

/-- Witness for C9: a topology naming `a-1` against concrete hosts
`a-1, a-2` is returned unchanged. -/
theorem C9_witness :
    match_hosts ["a-1", "a-2"] ["a-1"] = some (["a-1"], ["a-1", "a-2"]) :=
  C9_matcher_idempotent ["a-1", "a-2"] ["a-1"] (by decide)

/-! ## DHCP configuration strings (vm5k.py lines 500-507)

`str(ip)` is dotted-quad rendering; `"%02x"` is two lowercase hex digits;
Python `min`/`max` over the address list are left folds from the first
element.  Note the code takes the range bounds and the router address from
the whole filtered pool `vm_ip`, not from the issued `ip_mac` pairs. -/

/-- Decimal digit character. -/
def digit_char (n : Nat) : Char := Char.ofNat (48 + n)

/-- Decimal rendering of one octet (values 0-255). -/
def octet_str (n : Nat) : String :=
  if n < 10 then String.mk [digit_char n]
  else if n < 100 then String.mk [digit_char (n / 10), digit_char (n % 10)]
  else String.mk [digit_char (n / 100), digit_char (n / 10 % 10), digit_char (n % 10)]

/-- `str(ip)`: dotted-quad rendering of a 32-bit address. -/
def ip_str (a : Nat) : String :=
  octet_str (a / 2 ^ 24 % 256) ++ "." ++ octet_str (a / 2 ^ 16 % 256) ++ "." ++
    octet_str (a / 256 % 256) ++ "." ++ octet_str (a % 256)

/-- Lowercase hexadecimal digit character. -/
def hex_char (d : Nat) : Char :=
  if d < 10 then Char.ofNat (48 + d) else Char.ofNat (87 + d)

/-- `"%02x" % x`: two lowercase hex digits of a byte. -/
def byte_hex (n : Nat) : String :=
  String.mk [hex_char (n / 16 % 16), hex_char (n % 16)]

/-- `':'.join(map(lambda x: "%02x" % x, mac))` (line 432). -/
def mac_str (m : List Nat) : String := String.intercalate ":" (m.map byte_hex)

/-- Line 432 packaging: `ip_mac` stores `(str(ip), mac string)` pairs. -/
def str_pairs (l : List (Nat × List Nat)) : List (String × String) :=
  l.map (fun p => (ip_str p.1, mac_str p.2))

/-- Python `min` over a list (the list is nonempty at line 503). -/
def list_min : List Nat → Nat
  | [] => 0
  | a :: t => t.foldl Nat.min a

/-- Python `max` over a list. -/
def list_max : List Nat → Nat
  | [] => 0
  | a :: t => t.foldl Nat.max a

/-- `dhcp_hosts` (lines 500-502): one accumulated
`dhcp-host=:<mac>,<ip>` line per issued pair. -/
def dhcp_hosts (pairs : List (String × String)) : String :=
  pairs.foldl (fun acc q => acc ++ ("dhcp-host=" ++ ":" ++ q.2 ++ "," ++ q.1 ++ "\n")) ""

/-- `network` and `dhcp_range` (lines 503-504): the range runs from
`min(vm_ip)` to `max(vm_ip)` — the whole filtered pool — with the netmask
and a 12h lease. -/
def dhcp_range (pool : List Nat) (mask : Nat) : String :=
  "dhcp-range=" ++
    (ip_str (list_min pool) ++ "," ++ ip_str (list_max pool) ++ "," ++ ip_str mask) ++
    ",12h\n"

/-- `dhcp_router` (line 507): the gateway is `max(vm_ip)`. -/
def dhcp_router (pool : List Nat) : String :=
  "dhcp-option=option:router," ++ ip_str (list_max pool) ++ "\n"

theorem foldl_min_eq (t : List Nat) (a : Nat) (h : ∀ x ∈ t, a ≤ x) :
    t.foldl Nat.min a = a := by
  induction t generalizing a with
  | nil => rfl
  | cons b t2 ih =>
    rw [List.foldl_cons]
    have hab : a.min b = a := by
      have h1 : min a b = a := by
        have := h b (List.mem_cons_self _ _)
        omega
      exact h1
    rw [hab]
    exact ih a (fun x hx => h x (List.mem_cons_of_mem _ hx))

theorem list_min_sorted (pool : List Nat) (h : pool.Pairwise (· < ·)) :
    list_min pool = pool.headD 0 := by
  cases pool with
  | nil => rfl
  | cons a t =>
    have := List.pairwise_cons.mp h
    exact foldl_min_eq t a (fun x hx => (this.1 x hx).le)

theorem headD_take (pool : List Nat) (n : Nat) (hn : 1 ≤ n) (hp : pool ≠ []) :
    (pool.take n).headD 0 = pool.headD 0 := by
  cases pool with
  | nil => exact absurd rfl hp
  | cons a t =>
    cases n with
    | zero => omega
    | succ m => simp

theorem dhcp_hosts_eq_join (pairs : List (String × String)) :
    dhcp_hosts pairs =
      String.join (pairs.map (fun q => "dhcp-host=" ++ ":" ++ q.2 ++ "," ++ q.1 ++ "\n")) := by
  unfold dhcp_hosts String.join
  rw [List.foldl_map]

/-- C8 counterexample: on the /30 block 10.0.67.0 (usable pool
10.0.67.1, 10.0.67.2) with a single requested VM, the only issued address
is 10.0.67.1, yet the router option names 10.0.67.2 — the maximum of the
whole filtered pool, not of the allocated addresses — as the gateway,
refuting the claim as stated. -/
theorem C8_counterexample :
    ip_mac 0x0A004300 30 1 5 1 (fun k => k) 1 =
      some [(0x0A004301, [0, 32, 78, 0, 1, 2])] ∧
    dhcp_router (vm_ip 0x0A004300 30 1 5) = "dhcp-option=option:router,10.0.67.2\n" ∧
    list_max ([((0x0A004301 : Nat), [(0 : Nat), 32, 78, 0, 1, 2])].map Prod.fst) =
      0x0A004301 ∧
    ip_str 0x0A004301 ≠ "10.0.67.2" := by
  refine ⟨by decide, by decide, by decide, by decide⟩

/-- C8 (amended): the DHCP strings contain one host entry per issued pair
binding that VM's MAC to its address; the range declaration and the router
option take their bounds and gateway from the minimum and maximum of the
whole filtered address pool `vm_ip` — not of the issued addresses.  The
lower bound coincides with the first (minimum) issued address, and the
upper bound/gateway equals the maximum issued address only when the whole
pool is issued (`pool size ≤ n`). -/
theorem C8_dhcp_strings (base pfx n_sites : Nat) (kavlan_id : Int)
    (n_vm : Nat) (rand : Nat → Nat) (fuel : Nat) (l : List (Nat × List Nat))
    (mask : Nat)
    (h : ip_mac base pfx n_sites kavlan_id n_vm rand fuel = some l)
    (hn : 1 ≤ n_vm) :
    dhcp_hosts (str_pairs l) =
      String.join ((str_pairs l).map
        (fun q => "dhcp-host=" ++ ":" ++ q.2 ++ "," ++ q.1 ++ "\n")) ∧
    dhcp_range (vm_ip base pfx n_sites kavlan_id) mask =
      "dhcp-range=" ++
        (ip_str (list_min (vm_ip base pfx n_sites kavlan_id)) ++ "," ++
          ip_str (list_max (vm_ip base pfx n_sites kavlan_id)) ++ "," ++
          ip_str mask) ++ ",12h\n" ∧
    dhcp_router (vm_ip base pfx n_sites kavlan_id) =
      "dhcp-option=option:router," ++
        ip_str (list_max (vm_ip base pfx n_sites kavlan_id)) ++ "\n" ∧
    list_min (vm_ip base pfx n_sites kavlan_id) = (l.map Prod.fst).headD 0 ∧
    ((vm_ip base pfx n_sites kavlan_id).length ≤ n_vm →
      list_max (vm_ip base pfx n_sites kavlan_id) = list_max (l.map Prod.fst)) := by
  have hne : vm_ip base pfx n_sites kavlan_id ≠ [] := by
    intro he
    unfold ip_mac at h
    rw [if_pos he] at h
    exact absurd h (by simp)
  have hfst : l.map Prod.fst = (vm_ip base pfx n_sites kavlan_id).take n_vm := by
    unfold ip_mac at h
    rw [if_neg hne] at h
    exact (ip_mac_loop_spec rand fuel _ [] 0 l h).1
  refine ⟨dhcp_hosts_eq_join _, rfl, rfl, ?_, ?_⟩
  · rw [hfst, headD_take _ _ hn hne]
    exact list_min_sorted _ (vm_ip_sorted base pfx n_sites kavlan_id)
  · intro hlen
    rw [hfst, List.take_of_length_le hlen]

/-- Witness for C8 at the /30 run with both pool addresses issued. -/
theorem C8_witness :
    dhcp_hosts (str_pairs [(0x0A004301, [0, 32, 78, 0, 1, 2]),
        (0x0A004302, [0, 32, 78, 3, 4, 5])]) =
      String.join ((str_pairs [(0x0A004301, [0, 32, 78, 0, 1, 2]),
          (0x0A004302, [0, 32, 78, 3, 4, 5])]).map
        (fun q => "dhcp-host=" ++ ":" ++ q.2 ++ "," ++ q.1 ++ "\n")) ∧
    dhcp_range (vm_ip 0x0A004300 30 1 5) 0xFFFFFFFC =
      "dhcp-range=" ++
        (ip_str (list_min (vm_ip 0x0A004300 30 1 5)) ++ "," ++
          ip_str (list_max (vm_ip 0x0A004300 30 1 5)) ++ "," ++
          ip_str 0xFFFFFFFC) ++ ",12h\n" ∧
    dhcp_router (vm_ip 0x0A004300 30 1 5) =
      "dhcp-option=option:router," ++
        ip_str (list_max (vm_ip 0x0A004300 30 1 5)) ++ "\n" ∧
    list_min (vm_ip 0x0A004300 30 1 5) =
      (([((0x0A004301 : Nat), [(0 : Nat), 32, 78, 0, 1, 2]),
        (0x0A004302, [0, 32, 78, 3, 4, 5])]).map Prod.fst).headD 0 ∧
    ((vm_ip 0x0A004300 30 1 5).length ≤ 2 →
      list_max (vm_ip 0x0A004300 30 1 5) =
        list_max (([((0x0A004301 : Nat), [(0 : Nat), 32, 78, 0, 1, 2]),
          (0x0A004302, [0, 32, 78, 3, 4, 5])]).map Prod.fst)) :=
  C8_dhcp_strings 0x0A004300 30 1 5 2 (fun k => k) 1
    [(0x0A004301, [0, 32, 78, 0, 1, 2]), (0x0A004302, [0, 32, 78, 3, 4, 5])]
    0xFFFFFFFC (by decide) (by decide)
